import Mathlib

/-!
Verification of the composer repository: the AST-to-FSM compiler and the
conductor interpreter of `src/unnamed/part_000` (the offset-based conductor,
whose jumps are signed offsets relative to the emitting state), together
with the dispatch points of the variant conductor in `src/composer.js`
(whose `__init__` linearizes object pointers into absolute state indices and
whose `main` differs at the `choice` and `exit`/`pop` cases).

JSON values are modeled by `JValue`.  `JSON.parse(JSON.stringify(x))` deep
cloning is the identity on `JValue` (values are immutable here); each
cloning site of the source is noted in a comment.  `none : Option JValue`
models the JavaScript value `undefined`.
-/

/-- JSON values, the data manipulated by the conductor.  JavaScript numbers
are modeled as integers: every number occurring in the FSM, the stack and
the claims is integral. -/
inductive JValue where
  | null : JValue
  | bool (b : Bool) : JValue
  | num (n : Int) : JValue
  | str (s : String) : JValue
  | arr (elems : List JValue) : JValue
  | obj (fields : List (String × JValue)) : JValue

mutual

/-- Decidable equality on `JValue`, written by hand because `deriving` does
not handle the nested `List` occurrences. -/
def JValue.decEq : (a b : JValue) → Decidable (a = b)
  | .null, .null => isTrue rfl
  | .null, .bool _ => isFalse (fun h => JValue.noConfusion h)
  | .null, .num _ => isFalse (fun h => JValue.noConfusion h)
  | .null, .str _ => isFalse (fun h => JValue.noConfusion h)
  | .null, .arr _ => isFalse (fun h => JValue.noConfusion h)
  | .null, .obj _ => isFalse (fun h => JValue.noConfusion h)
  | .bool _, .null => isFalse (fun h => JValue.noConfusion h)
  | .bool a, .bool b =>
      if h : a = b then isTrue (h ▸ rfl)
      else isFalse (fun hh => h (JValue.bool.inj hh))
  | .bool _, .num _ => isFalse (fun h => JValue.noConfusion h)
  | .bool _, .str _ => isFalse (fun h => JValue.noConfusion h)
  | .bool _, .arr _ => isFalse (fun h => JValue.noConfusion h)
  | .bool _, .obj _ => isFalse (fun h => JValue.noConfusion h)
  | .num _, .null => isFalse (fun h => JValue.noConfusion h)
  | .num _, .bool _ => isFalse (fun h => JValue.noConfusion h)
  | .num a, .num b =>
      if h : a = b then isTrue (h ▸ rfl)
      else isFalse (fun hh => h (JValue.num.inj hh))
  | .num _, .str _ => isFalse (fun h => JValue.noConfusion h)
  | .num _, .arr _ => isFalse (fun h => JValue.noConfusion h)
  | .num _, .obj _ => isFalse (fun h => JValue.noConfusion h)
  | .str _, .null => isFalse (fun h => JValue.noConfusion h)
  | .str _, .bool _ => isFalse (fun h => JValue.noConfusion h)
  | .str _, .num _ => isFalse (fun h => JValue.noConfusion h)
  | .str a, .str b =>
      if h : a = b then isTrue (h ▸ rfl)
      else isFalse (fun hh => h (JValue.str.inj hh))
  | .str _, .arr _ => isFalse (fun h => JValue.noConfusion h)
  | .str _, .obj _ => isFalse (fun h => JValue.noConfusion h)
  | .arr _, .null => isFalse (fun h => JValue.noConfusion h)
  | .arr _, .bool _ => isFalse (fun h => JValue.noConfusion h)
  | .arr _, .num _ => isFalse (fun h => JValue.noConfusion h)
  | .arr _, .str _ => isFalse (fun h => JValue.noConfusion h)
  | .arr xs, .arr ys =>
      match JValue.decEqList xs ys with
      | isTrue h => isTrue (h ▸ rfl)
      | isFalse h => isFalse (fun hh => h (JValue.arr.inj hh))
  | .arr _, .obj _ => isFalse (fun h => JValue.noConfusion h)
  | .obj _, .null => isFalse (fun h => JValue.noConfusion h)
  | .obj _, .bool _ => isFalse (fun h => JValue.noConfusion h)
  | .obj _, .num _ => isFalse (fun h => JValue.noConfusion h)
  | .obj _, .str _ => isFalse (fun h => JValue.noConfusion h)
  | .obj _, .arr _ => isFalse (fun h => JValue.noConfusion h)
  | .obj xs, .obj ys =>
      match JValue.decEqFields xs ys with
      | isTrue h => isTrue (h ▸ rfl)
      | isFalse h => isFalse (fun hh => h (JValue.obj.inj hh))

/-- Decidable equality for lists of values. -/
def JValue.decEqList : (xs ys : List JValue) → Decidable (xs = ys)
  | [], [] => isTrue rfl
  | [], _ :: _ => isFalse (fun h => List.noConfusion h)
  | _ :: _, [] => isFalse (fun h => List.noConfusion h)
  | x :: xs, y :: ys =>
      match JValue.decEq x y, JValue.decEqList xs ys with
      | isTrue h1, isTrue h2 => isTrue (h1 ▸ h2 ▸ rfl)
      | isFalse h1, _ => isFalse (fun hh => h1 (List.cons.inj hh).1)
      | _, isFalse h2 => isFalse (fun hh => h2 (List.cons.inj hh).2)

/-- Decidable equality for object field lists. -/
def JValue.decEqFields : (xs ys : List (String × JValue)) → Decidable (xs = ys)
  | [], [] => isTrue rfl
  | [], _ :: _ => isFalse (fun h => List.noConfusion h)
  | _ :: _, [] => isFalse (fun h => List.noConfusion h)
  | (k, v) :: xs, (k', v') :: ys =>
      if h1 : k = k' then
        match JValue.decEq v v', JValue.decEqFields xs ys with
        | isTrue h2, isTrue h3 => isTrue (by rw [h1, h2, h3])
        | isFalse h2, _ => isFalse (fun hh => h2 (congrArg Prod.snd (List.cons.inj hh).1))
        | _, isFalse h3 => isFalse (fun hh => h3 (List.cons.inj hh).2)
      else isFalse (fun hh => h1 (congrArg Prod.fst (List.cons.inj hh).1))

end

instance : DecidableEq JValue := JValue.decEq

/-- JavaScript truthiness of a defined value. -/
def truthy : JValue → Bool
  | .null => false
  | .bool b => b
  | .num n => n != 0
  | .str s => s != ""
  | .arr _ => true
  | .obj _ => true

/-- Truthiness of a possibly-undefined value (`none` models `undefined`,
which is falsy). -/
def truthyOpt : Option JValue → Bool
  | none => false
  | some v => truthy v

/-- The conductor's `isObject`: a plain object, not `null`, not an array. -/
def isObject : JValue → Bool
  | .obj _ => true
  | _ => false

/-- First-match lookup in an object's field list.  JavaScript objects have
unique keys, for which first-match and last-match coincide. -/
def lookupStr (m : List (String × JValue)) (k : String) : Option JValue :=
  (m.find? (fun p => p.1 == k)).map Prod.snd

/-- JavaScript member access `v[k]`: `none` models `undefined`. -/
def objGet (v : JValue) (k : String) : Option JValue :=
  match v with
  | .obj fields => lookupStr fields k
  | _ => none

/-- JavaScript `delete v[k]` on an object; identity otherwise. -/
def removeKey (v : JValue) (k : String) : JValue :=
  match v with
  | .obj fields => .obj (fields.filter (fun p => p.1 != k))
  | x => x

/-- A runtime stack frame (spec §3.3).  Each field is optional so that a
frame is exactly the object the interpreter reads: `catchF f = none` models
`frame.catch` being `undefined`, and likewise for the `let` map of a `let`
frame and the saved `params` of a `push` frame. -/
structure Frame where
  catchF : Option Int := none
  letF : Option (List (String × JValue)) := none
  paramsF : Option JValue := none
deriving DecidableEq

/-- The stack-unwinding loop inside `inspect` (part_000 line 340-342):
`state = undefined; while (stack.length > 0) { if (typeof (state =
stack.shift().catch) === 'number') break }`.  Returns the final `state` and
the remaining stack. -/
def unwind : List Frame → Option Int × List Frame
  | [] => (none, [])
  | f :: rest =>
      match f.catchF with
      | some n => (some n, rest)
      | none => unwind rest

/-- `inspect` (part_000 lines 335-344): wrap a non-object `params` as
`{value: params}`; if `params.error` is defined, discard all other fields,
abort (`state = undefined`) and unwind the stack to the nearest frame whose
`catch` is a number.  Returns the updated `(state, stack, params)`. -/
def inspect (state : Option Int) (stack : List Frame) (params : JValue) :
    Option Int × List Frame × JValue :=
  let params := if isObject params then params else .obj [("value", params)]
  match objGet params "error" with
  | none => (state, stack, params)
  | some e =>
      let w := unwind stack
      (w.1, w.2, .obj [("error", e)])

/-- One step of JavaScript `Object.assign(acc, m)` for a single source
key-value pair: replace the value of an existing key in place, or append a
new key. -/
def assignStep (acc : List (String × JValue)) (kv : String × JValue) :
    List (String × JValue) :=
  if acc.any (fun p => p.1 == kv.1)
  then acc.map (fun p => if p.1 == kv.1 then (kv.1, kv.2) else p)
  else acc ++ [kv]

/-- JavaScript `Object.assign(acc, m)` on field lists. -/
def jsAssign (acc m : List (String × JValue)) : List (String × JValue) :=
  m.foldl assignStep acc

/-- The lexical environment of `run` (part_000 line 355):
`stack.reduceRight((acc, cur) => typeof cur.let === 'object' ?
Object.assign(acc, cur.let) : acc, {})`.  `reduceRight` folds from the
deepest frame to the shallowest, so shallower frames override deeper ones on
name collision. -/
def buildEnv (stack : List Frame) : List (String × JValue) :=
  stack.foldr
    (fun cur acc =>
      match cur.letF with
      | some m => jsAssign acc m
      | none => acc)
    []

/-- The binding of `name` declared by a frame's `let` map, if any
(`typeof element.let !== 'undefined' && typeof element.let[name] !==
'undefined'`). -/
def frameDecl (f : Frame) (name : String) : Option JValue :=
  f.letF.bind (fun m => lookupStr m name)

/-- Overwrite the value of `name` inside a frame's `let` map
(`element.let[symbol] = JSON.parse(JSON.stringify(value))`; the deep clone
is the identity on `JValue`). -/
def updFrame (f : Frame) (name : String) (v : JValue) : Frame :=
  { f with letF := f.letF.map (fun m => m.map (fun p => if p.1 == name then (p.1, v) else p)) }

/-- `set` inside `run` (part_000 lines 349-352): update the value of the
topmost (frontmost) stack frame whose `let` map declares `name`, if any; a
name declared by no live `let` frame is not written back anywhere. -/
def setVar (stack : List Frame) (name : String) (v : JValue) : List Frame :=
  match stack with
  | [] => []
  | f :: rest =>
      if (frameDecl f name).isSome
      then updFrame f name v :: rest
      else f :: setVar rest name v

/-- The write-back loop of `run` (part_000 line 364): `for (const name in
env) set(name, env[name])`, applied to the environment as it stands after
the user function returned. -/
def writeback (stack : List Frame) (env : List (String × JValue)) : List Frame :=
  env.foldl (fun st p => setVar st p.1 p.2) stack

/-- The tag of an FSM state (spec §3.2). -/
inductive StateType where
  | pass : StateType
  | action : StateType
  | function : StateType
  | literal : StateType
  | choice : StateType
  | push : StateType
  | pop : StateType
  | letS : StateType
  | exit : StateType
  | tryS : StateType
deriving DecidableEq

/-- An FSM state record.  Fields not pertaining to a state's type keep their
defaults and are never read for that type, mirroring the JSON records the
compiler emits (`letS`/`tryS` stand for the reserved words `let`/`try`; the
logging-only `path` field of the source is omitted).  In the offset-based
conductor `next`, `thenJ`, `elseJ` and `catchJ` are signed offsets relative
to the owning state's index. -/
structure FsmState where
  type : StateType
  next : Option Int := none
  name : String := ""
  exec : String := ""
  value : JValue := .null
  thenJ : Int := 0
  elseJ : Int := 0
  catchJ : Int := 0
  letJ : List (String × JValue) := []
  field : Option String := none
  collect : Bool := false
deriving DecidableEq

/-- Set the `next` of the last state of a list (`front.slice(-1)[0].next =
n`). -/
def setLastNext (l : List FsmState) (n : Int) : List FsmState :=
  match l with
  | [] => []
  | [x] => [{ x with next := some n }]
  | x :: xs => x :: setLastNext xs n

/-- `chain` (part_000 lines 235-239): set the last state's `next` to `1` and
append. -/
def chain (front back : List FsmState) : List FsmState :=
  setLastNext front 1 ++ back

/-- `fsm[0].catch = n` after a reduce, in the `finally` and `try` cases of
the compiler. -/
def setCatch0 (l : List FsmState) (n : Int) : List FsmState :=
  match l with
  | [] => []
  | x :: xs => { x with catchJ := n } :: xs

/-- `fsm[0].field = f` in the `retain` case of the compiler. -/
def setField0 (l : List FsmState) (f : String) : List FsmState :=
  match l with
  | [] => []
  | x :: xs => { x with field := some f } :: xs

/-- The composition AST reaching the compiler (spec §3.1, after the
Builder's normalization; a sequence is the flattened array of its
children). -/
inductive Ast where
  | action (name : String) : Ast
  | function (exec : String) : Ast
  | literal (value : JValue) : Ast
  | seq (children : List Ast) : Ast
  | ifc (test cons alt : Ast) (nosave : Bool) : Ast
  | whilec (test body : Ast) (nosave : Bool) : Ast
  | tryc (body handler : Ast) : Ast
  | finallyc (body finalizer : Ast) : Ast
  | letc (decls : List (String × JValue)) (body : Ast) : Ast
  | retain (body : Ast) (field : Option String) : Ast

mutual

/-- `compile` (part_000 lines 241-299), lowering an AST to a flat list of
FSM states whose jumps are offsets relative to the emitting state.  The
`nosave` flag of `if`/`while` is the only recognized option besides
`retain`'s `field`, which is carried on the `retain` node itself. -/
def compile : Ast → List FsmState
  | .action n => [{ type := .action, name := n }]
  | .function e => [{ type := .function, exec := e }]
  | .literal v => [{ type := .literal, value := v }]
  | .seq cs => compileSeq cs
  | .finallyc body finalizer =>
      let b := compile body
      let fin := compile finalizer
      let fsm := chain (chain (chain [{ type := .tryS }] b) [{ type := .exit }]) fin
      setCatch0 fsm ((fsm.length : Int) - fin.length)
  | .letc decls body =>
      chain (chain [{ type := .letS, letJ := decls }] (compile body)) [{ type := .exit }]
  | .retain body field =>
      let b := compile body
      let fsm := chain (chain [{ type := .push }] b) [{ type := .pop, collect := true }]
      match field with
      | some f => if f != "" then setField0 fsm f else fsm
      | none => fsm
  | .tryc body handler =>
      let b := compile body
      let h := chain (compile handler) [{ type := .pass }]
      let fsm := setCatch0 (chain [{ type := .tryS }] b) ((1 : Int) + b.length)
      setLastNext fsm (h.length : Int) ++ h
  | .ifc test cons alt nosave =>
      let consequent0 := compile cons
      let alternate0 := chain (compile alt) [{ type := .pass }]
      let consequent := if nosave then consequent0 else chain [{ type := .pop }] consequent0
      let alternate := if nosave then alternate0 else chain [{ type := .pop }] alternate0
      let fsm0 := chain (compile test)
        [{ type := .choice, thenJ := 1, elseJ := (consequent.length : Int) + 1 }]
      let fsm := if nosave then fsm0 else chain [{ type := .push }] fsm0
      fsm ++ setLastNext consequent (alternate.length : Int) ++ alternate
  | .whilec test body nosave =>
      let consequent0 := compile body
      let alternate0 : List FsmState := [{ type := .pass }]
      let consequent := if nosave then consequent0 else chain [{ type := .pop }] consequent0
      let alternate := if nosave then alternate0 else chain [{ type := .pop }] alternate0
      let fsm0 := chain (compile test)
        [{ type := .choice, thenJ := 1, elseJ := (consequent.length : Int) + 1 }]
      let fsm := if nosave then fsm0 else chain [{ type := .push }] fsm0
      fsm ++ setLastNext consequent (1 - (fsm.length : Int) - consequent.length) ++ alternate

/-- Compilation of a (flattened) sequence: an empty sequence compiles to a
single `pass`; otherwise `json.map(compile).reduce(chain)`. -/
def compileSeq : List Ast → List FsmState
  | [] => [{ type := .pass }]
  | c :: cs => compileSeqAux (compile c) cs

/-- The left fold of `reduce(chain)` over the compiled children. -/
def compileSeqAux : List FsmState → List Ast → List FsmState
  | acc, [] => acc
  | acc, c :: cs => compileSeqAux (chain acc (compile c)) cs

end

/-- The outcome an invocation of the user function can have, abstracting the
dynamic evaluation of the code string: it can throw, evaluate to a callable,
return `undefined`, or return a JSON value. -/
inductive FnRes where
  | throws : FnRes
  | fnVal : FnRes
  | undef : FnRes
  | value (v : JValue) : FnRes
deriving DecidableEq

/-- An oracle standing for the dynamic evaluator of `function` states: given
the current state index, the current `params` and the lexical environment,
it yields the outcome together with the environment as mutated by the user
code (the source writes every environment name back after evaluation). -/
abbrev Oracle := Int → JValue → List (String × JValue) → FnRes × List (String × JValue)

/-- An oracle for runs that never reach a `function` state. -/
def dummyOracle : Oracle := fun _ _ _ => (FnRes.undef, [])

/-- The result of one conductor invocation; `reject code msg` covers both
`badRequest` (code 400) and `internalError` (`encodeError` yields code 500
for the string messages the interpreter produces, and for exceptions of the
underlying runtime). -/
inductive Outcome where
  | result (v : JValue) : Outcome
  | reject (code : Int) (error : String) : Outcome
  | continuation (action : String) (params : JValue) (state : Option Int) (stack : List Frame) : Outcome
deriving DecidableEq

/-- `fsm[state]`: `none` when the index is out of range (in JavaScript the
subsequent field access throws and is caught by the enclosing promise as an
internal error). -/
def getState (fsm : List FsmState) (i : Int) : Option FsmState :=
  if h : 0 ≤ i ∧ i.toNat < fsm.length then some (fsm.get ⟨i.toNat, h.2⟩) else none

/-- The interpreter loop of `invoke` (part_000 lines 368-430), with fuel:
`none` means the fuel ran out before the run ended.  Each step mirrors one
iteration of `while (true)`: terminal check, fetch of the current state,
default `next`, and dispatch on the state type. -/
def loop (oracle : Oracle) (fsm : List FsmState) :
    Nat → Option Int → List Frame → JValue → Option Outcome
  | 0, _, _, _ => none
  | _ + 1, none, _, params =>
      some (.result (if truthyOpt (objGet params "error") then params
                     else .obj [("params", params)]))
  | fuel + 1, some current, stack, params =>
      match getState fsm current with
      | none => some (.reject 500 "An internal error occurred")
      | some json =>
          let defNext : Option Int := json.next.map (fun n => current + n)
          match json.type with
          | .choice =>
              loop oracle fsm fuel
                (some (current + (if truthyOpt (objGet params "value") then json.thenJ else json.elseJ)))
                stack params
          | .tryS =>
              loop oracle fsm fuel defNext
                ({ catchF := some (current + json.catchJ) } :: stack) params
          | .letS =>
              loop oracle fsm fuel defNext ({ letF := some json.letJ } :: stack) params
          | .exit =>
              match stack with
              | [] => some (.reject 500 s!"State {current} attempted to pop from an empty stack")
              | _ :: rest => loop oracle fsm fuel defNext rest params
          | .push =>
              let pushed : Option JValue :=
                match json.field with
                | some f => if f != "" then objGet params f else some params
                | none => some params
              loop oracle fsm fuel defNext ({ paramsF := pushed } :: stack) params
          | .pop =>
              match stack with
              | [] => some (.reject 500 s!"State {current} attempted to pop from an empty stack")
              | f :: rest =>
                  if json.collect then
                    loop oracle fsm fuel defNext rest
                      (.obj ((match f.paramsF with
                              | some p => [("params", p)]
                              | none => []) ++ [("result", params)]))
                  else
                    match f.paramsF with
                    | some p => loop oracle fsm fuel defNext rest p
                    | none => some (.reject 500 "An internal error occurred")
          | .action => some (.continuation json.name params defNext stack)
          | .literal =>
              let t := inspect defNext stack json.value
              loop oracle fsm fuel t.1 t.2.1 t.2.2
          | .function =>
              let env := buildEnv stack
              let out := oracle current params env
              let stack' := writeback stack out.2
              let params' : JValue :=
                match out.1 with
                | .throws => .obj [("error", .str s!"An exception was caught at state {current} (see log for details)")]
                | .fnVal => .obj [("error", .str s!"State {current} evaluated to a function")]
                | .undef => params
                | .value v => v
              let t := inspect defNext stack' params'
              loop oracle fsm fuel t.1 t.2.1 t.2.2
          | .pass =>
              let t := inspect defNext stack params
              loop oracle fsm fuel t.1 t.2.1 t.2.2

/-- The `typeof state !== 'undefined' && typeof state !== 'number'` check of
the resume validation. -/
def stateBad : Option JValue → Bool
  | none => false
  | some (.num _) => false
  | some _ => true

/-- The restored `state` of a valid `$resume`: `state = params.$resume.state`
overwrites the initial `0`, so an absent `state` leaves `undefined`. -/
def stateOf : Option JValue → Option Int
  | some (.num n) => some n
  | _ => none

/-- Decode one JSON element of `$resume.stack` into a frame of the shape of
spec §3.3; `none` for values outside that shape (the interpreter itself
only ever serializes frames of this shape into continuations). -/
def frameOfJson (v : JValue) : Option Frame :=
  match v with
  | .obj fs => do
      let c ← match lookupStr fs "catch" with
              | none => some none
              | some (.num n) => some (some n)
              | some _ => none
      let l ← match lookupStr fs "let" with
              | none => some none
              | some (.obj m) => some (some m)
              | some _ => none
      some { catchF := c, letF := l, paramsF := lookupStr fs "params" }
  | _ => none

/-- Decode a `$resume.stack` array. -/
def decodeFrames (l : List JValue) : Option (List Frame) :=
  l.mapM frameOfJson

/-- `invoke` (part_000 lines 318-430): initial state `0` and empty stack;
when `params.$resume` is present, validate it, restore `state` and `stack`,
strip `$resume` from `params`, and run `inspect` before entering the loop. -/
def invoke (oracle : Oracle) (fsm : List FsmState) (fuel : Nat) (params : JValue) :
    Option Outcome :=
  match objGet params "$resume" with
  | none => loop oracle fsm fuel (some 0) [] params
  | some r =>
      if !isObject r then
        some (.reject 400 "The type of optional $resume parameter must be object")
      else if stateBad (objGet r "state") then
        some (.reject 400 "The type of optional $resume.state parameter must be number")
      else
        match objGet r "stack" with
        | some (.arr frames) =>
            match decodeFrames frames with
            | some stack =>
                let t := inspect (stateOf (objGet r "state")) stack (removeKey params "$resume")
                loop oracle fsm fuel t.1 t.2.1 t.2.2
            | none => some (.reject 500 "An internal error occurred")
        | _ => some (.reject 400 "The type of $resume.stack must be an array")

/-- The `choice` dispatch of the variant conductor (`src/composer.js` line
417): `state = params.value === true ? json.then : json.else`, with `then`
and `else` holding absolute, linearized state indices. -/
def choiceNextV (json : FsmState) (params : JValue) : Option Int :=
  some (if objGet params "value" = some (.bool true) then json.thenJ else json.elseJ)

/-- The `exit` (and `pop` stack-underflow) dispatch of the variant conductor
(`src/composer.js` lines 425-427): an empty stack is reported through
`badRequest`, code 400. -/
def exitStepV (current : Int) (stack : List Frame) : Except (Int × String) (List Frame) :=
  match stack with
  | [] => .error (400, s!"State {current} attempted to pop from an empty stack")
  | _ :: rest => .ok rest

/-- Distinctness of the keys of a binding map, as holds for any JavaScript
object. -/
abbrev keysNodup (m : List (String × JValue)) : Prop := (m.map Prod.fst).Nodup

/-- Well-formedness of a stack for the environment lemmas: every `let` map
carries distinct keys (`getD` yields `[]` for frames without a `let`
map). -/
abbrev WFstack (stack : List Frame) : Prop := ∀ f ∈ stack, keysNodup (f.letF.getD [])

/-! ## Helper lemmas -/

theorem setLastNext_length : ∀ (l : List FsmState) (n : Int), (setLastNext l n).length = l.length
  | [], _ => rfl
  | [_], _ => rfl
  | x :: y :: ys, n => by
      simp only [setLastNext, List.length_cons]
      exact congrArg (· + 1) (setLastNext_length (y :: ys) n)

theorem setLastNext_cons_of_ne_nil (x : FsmState) (l : List FsmState) (h : l ≠ []) (n : Int) :
    setLastNext (x :: l) n = x :: setLastNext l n := by
  cases l with
  | nil => exact absurd rfl h
  | cons y ys => rfl

theorem setLastNext_append (l₁ l₂ : List FsmState) (h : l₂ ≠ []) (n : Int) :
    setLastNext (l₁ ++ l₂) n = l₁ ++ setLastNext l₂ n := by
  induction l₁ with
  | nil => rfl
  | cons x xs ih =>
      have hne : xs ++ l₂ ≠ [] := by
        cases l₂ with
        | nil => exact absurd rfl h
        | cons b bs => simp
      rw [List.cons_append, setLastNext_cons_of_ne_nil x (xs ++ l₂) hne, ih, List.cons_append]

theorem chain_length (f b : List FsmState) : (chain f b).length = f.length + b.length := by
  simp [chain, setLastNext_length]

theorem unwind_no_catch : ∀ (stack : List Frame), (∀ f ∈ stack, f.catchF = none) →
    unwind stack = (none, [])
  | [], _ => rfl
  | f :: rest, h => by
      have hf : f.catchF = none := h f (List.mem_cons_self f rest)
      simp only [unwind, hf]
      exact unwind_no_catch rest (fun g hg => h g (List.mem_cons_of_mem f hg))

theorem unwind_first_catch : ∀ (stack : List Frame) (i : ℕ) (n : Int) (hi : i < stack.length),
    (∀ j (hj : j < stack.length), j < i → (stack.get ⟨j, hj⟩).catchF = none) →
    (stack.get ⟨i, hi⟩).catchF = some n →
    unwind stack = (some n, stack.drop (i + 1))
  | [], i, n, hi, _, _ => absurd hi (by simp)
  | f :: rest, 0, n, hi, _, hc => by
      simp only [List.get] at hc
      simp [unwind, hc]
  | f :: rest, i + 1, n, hi, hprev, hc => by
      have hf : f.catchF = none := hprev 0 (by simp) (Nat.succ_pos i)
      simp only [unwind, hf]
      have hi' : i < rest.length := by simpa using hi
      have hprev' : ∀ j (hj : j < rest.length), j < i → (rest.get ⟨j, hj⟩).catchF = none := by
        intro j hj hlt
        have := hprev (j + 1) (by simpa using Nat.succ_lt_succ hj) (Nat.succ_lt_succ hlt)
        simpa using this
      have hc' : (rest.get ⟨i, hi'⟩).catchF = some n := by simpa using hc
      simpa using unwind_first_catch rest i n hi' hprev' hc'

theorem objGet_some_isObject {params : JValue} {k : String} {e : JValue}
    (h : objGet params k = some e) : isObject params = true := by
  cases params <;> simp [objGet, isObject] at h ⊢

/-! ## C1: choice dispatch -/

/-- C1, amended.  In the offset-based conductor (part_000) a `choice` state
sets the next state to `current + json.then` exactly when `params.value` is
truthy and to `current + json.else` otherwise, with no coercion beyond
truthiness.  In the variant conductor (composer.js) the dispatch instead
selects `json.then` (an absolute linearized index) exactly when
`params.value === true`, so a truthy non-`true` value takes the else
branch there. -/
theorem c1_amended (oracle : Oracle) (fsm : List FsmState) (fuel : Nat) (current : Int)
    (stack : List Frame) (params : JValue) (json : FsmState)
    (hget : getState fsm current = some json) (hty : json.type = .choice) :
    loop oracle fsm (fuel + 1) (some current) stack params
      = loop oracle fsm fuel
          (some (current + (if truthyOpt (objGet params "value") then json.thenJ else json.elseJ)))
          stack params
    ∧ choiceNextV json params
      = some (if objGet params "value" = some (.bool true) then json.thenJ else json.elseJ) := by
  constructor
  · obtain ⟨ty, nx, nm, ex, vl, th, el, ca, lt, fd, cl⟩ := json
    simp only at hty
    subst hty
    simp only [loop, hget]
  · rfl

/-- Witness for C1: a concrete choice state with `params.value = 1` (truthy,
not the boolean `true`): the offset conductor advances to `current + then`,
while the variant conductor selects the else target. -/
theorem c1_amended_witness :
    loop dummyOracle [{ type := StateType.choice, thenJ := 1, elseJ := 2 }] 1 (some 0) []
        (.obj [("value", .num 1)])
      = loop dummyOracle [{ type := StateType.choice, thenJ := 1, elseJ := 2 }] 0 (some 1) []
        (.obj [("value", .num 1)])
    ∧ choiceNextV { type := StateType.choice, thenJ := 1, elseJ := 2 }
        (.obj [("value", .num 1)]) = some 2 := by
  have h := c1_amended dummyOracle [{ type := StateType.choice, thenJ := 1, elseJ := 2 }] 0 0 []
    (.obj [("value", .num 1)]) { type := StateType.choice, thenJ := 1, elseJ := 2 }
    (by decide) rfl
  exact ⟨h.1, h.2⟩

/-- Counterexample for C1 as stated: in the variant conductor of
`src/composer.js`, the truthy value `1` selects the else branch, so it is
not the case that every truthy `params.value` selects the then branch in
every interpreter of the repository. -/
theorem c1_counterexample :
    truthy (JValue.num 1) = true
    ∧ choiceNextV { type := StateType.choice, thenJ := 5, elseJ := 9 }
        (.obj [("value", .num 1)]) = some 9
    ∧ (9 : Int) ≠ 5 := by
  refine ⟨rfl, rfl, by decide⟩

/-! ## C2: exit and pop on an empty stack -/

/-- C2, amended.  In the offset-based conductor, dispatching `exit` or `pop`
on an empty stack rejects with the internal-error code 500 (never 400), and
`exit` on a non-empty stack removes exactly the front frame.  The variant
conductor instead reports the empty-stack case through `badRequest`,
code 400. -/
theorem c2_amended (oracle : Oracle) (fsm : List FsmState) (fuel : Nat) (current : Int)
    (stack : List Frame) (params : JValue) (json : FsmState)
    (hget : getState fsm current = some json) :
    ((json.type = .exit ∨ json.type = .pop) → stack = [] →
      loop oracle fsm (fuel + 1) (some current) stack params
        = some (.reject 500 s!"State {current} attempted to pop from an empty stack"))
    ∧ (json.type = .exit → ∀ g rest, stack = g :: rest →
        loop oracle fsm (fuel + 1) (some current) stack params
          = loop oracle fsm fuel (json.next.map (fun n => current + n)) rest params
        ∧ stack.length = rest.length + 1)
    ∧ exitStepV current []
        = .error (400, s!"State {current} attempted to pop from an empty stack") := by
  obtain ⟨ty, nx, nm, ex, vl, th, el, ca, lt, fd, cl⟩ := json
  refine ⟨?_, ?_, rfl⟩
  · rintro (hty | hty) rfl <;> (simp only at hty; subst hty; simp only [loop, hget])
  · intro hty g rest hstack
    simp only at hty
    subst hty
    subst hstack
    exact ⟨by simp only [loop, hget], by simp⟩

/-- Witness for C2: a one-state FSM whose state 0 is `exit`, run on an empty
stack, rejects with code 500; on a one-frame stack the frame is consumed;
the variant conductor's exit yields code 400 on the empty stack. -/
theorem c2_amended_witness :
    loop dummyOracle [{ type := StateType.exit }] 1 (some 0) [] (.obj [])
      = some (.reject 500 "State 0 attempted to pop from an empty stack")
    ∧ loop dummyOracle [{ type := StateType.exit }] 1 (some 0) [{ catchF := some 3 }] (.obj [])
      = loop dummyOracle [{ type := StateType.exit }] 0 none [] (.obj [])
    ∧ exitStepV 0 [] = .error (400, "State 0 attempted to pop from an empty stack") := by
  have h1 := c2_amended dummyOracle [{ type := StateType.exit }] 0 0 [] (.obj [])
    { type := StateType.exit } (by decide)
  have h2 := c2_amended dummyOracle [{ type := StateType.exit }] 0 0 [{ catchF := some 3 }]
    (.obj []) { type := StateType.exit } (by decide)
  exact ⟨h1.1 (Or.inl rfl) rfl, (h2.2.1 rfl { catchF := some 3 } [] rfl).1, h1.2.2⟩

/-- Counterexample for C2 as stated: the variant conductor of
`src/composer.js` reports an `exit` on the empty stack as a bad request,
code 400, which is not an internal error with code ≥ 500. -/
theorem c2_counterexample :
    exitStepV 0 [] = .error (400, "State 0 attempted to pop from an empty stack")
    ∧ (400 : Int) < 500 := by
  exact ⟨rfl, by decide⟩

/-! ## C3: compilation of while -/

/-- C3, confirmed.  For every AST `while(test, body)` without the `nosave`
option, the compiler emits, in order: a `push`, the compiled test, a
`choice` with `then = +1` and `else = +(|body'| + 1)` where
`body' = pop :: compiled body` (so `else = |body| + 2`), then `body'` whose
last state's `next` is the negative offset `-(|test| + |body| + 2)`, then a
trailing `pass` prepended with a `pop`.  The second conjunct checks that the
negative offset, taken from the relative index `2 + |test| + |body|` of the
last state of `body'`, lands exactly on relative index 0, the `push` that
opens the while block; all offsets are relative to the emitting state. -/
theorem c3_while_compile (test body : Ast) :
    compile (Ast.whilec test body false)
      = [{ type := .push, next := some 1 }]
        ++ setLastNext (compile test) 1
        ++ [{ type := .choice, thenJ := 1,
              elseJ := ((compile body).length : Int) + 2 }]
        ++ setLastNext ([{ type := .pop, next := some 1 }] ++ compile body)
             (-(((compile test).length : Int) + (compile body).length + 2))
        ++ [{ type := .pop, next := some 1 }, { type := .pass }]
    ∧ (((2 : Int) + (compile test).length + (compile body).length)
         + (-(((compile test).length : Int) + (compile body).length + 2)) = 0)
    ∧ (-(((compile test).length : Int) + (compile body).length + 2)) < 0 := by
  refine ⟨?_, by ring, by omega⟩
  simp only [compile, Bool.false_eq_true, if_false, chain]
  simp only [setLastNext, List.singleton_append, List.length_cons, List.length_append,
    List.length_nil, setLastNext_length]
  push_cast
  ring_nf
  simp [List.cons_append, List.append_assoc]

/-! ## C4: the retain scenario -/

/-- C4, confirmed.  Running the composition `retain(literal({y:2}))` on
input `{x:1}` terminates successfully with
`{params: {params: {x:1}, result: {y:2}}}`: the `push` snapshots the input,
the `literal` replaces `params` with `{y:2}`, and the `pop` with
`collect: true` pairs the snapshot with the body's result. -/
theorem c4_retain_scenario :
    invoke dummyOracle (compile (.retain (.literal (.obj [("y", .num 2)])) none)) 10
        (.obj [("x", .num 1)])
      = some (.result (.obj [("params",
          .obj [("params", .obj [("x", .num 1)]), ("result", .obj [("y", .num 2)])])])) := by
  rfl

/-! ## C5: inspect with a defined error -/

/-- C5, amended.  For every stack (of frames of the §3.3 shape) and params
with a defined `error` field, `inspect` replaces `params` by the object
containing only that error field and unwinds: if no frame's `catch` is a
number it removes every frame, leaving `state = ⊥` and an empty stack; if
the frontmost frame with a numeric `catch` sits at index `i`, it removes the
frames up to and including it and sets `state` to that number.  On the next
iteration the interpreter terminates without crashing — but (amending the
claim) it returns the bare error object (a terminal error) only when the
error value is truthy; a defined-but-falsy error value terminates as a
success wrapping `{params: {error: ...}}`. -/
theorem c5_amended (st : Option Int) (stack : List Frame) (params e : JValue)
    (hp : objGet params "error" = some e) :
    (inspect st stack params).2.2 = .obj [("error", e)]
    ∧ ((∀ f ∈ stack, f.catchF = none) →
        inspect st stack params = (none, [], .obj [("error", e)]))
    ∧ (∀ (i : ℕ) (n : Int) (hi : i < stack.length),
        (∀ j (hj : j < stack.length), j < i → (stack.get ⟨j, hj⟩).catchF = none) →
        (stack.get ⟨i, hi⟩).catchF = some n →
        inspect st stack params = (some n, stack.drop (i + 1), .obj [("error", e)]))
    ∧ (∀ (oracle : Oracle) (fsm : List FsmState) (fuel : Nat),
        loop oracle fsm (fuel + 1) none [] (.obj [("error", e)])
          = some (.result (if truthy e then .obj [("error", e)]
                           else .obj [("params", .obj [("error", e)])]))) := by
  have hio : isObject params = true := objGet_some_isObject hp
  have hins : inspect st stack params
      = ((unwind stack).1, (unwind stack).2, .obj [("error", e)]) := by
    simp only [inspect, hio, if_true, hp]
  refine ⟨by rw [hins], ?_, ?_, ?_⟩
  · intro h
    rw [hins, unwind_no_catch stack h]
  · intro i n hi hprev hc
    rw [hins, unwind_first_catch stack i n hi hprev hc]
  · intro oracle fsm fuel
    simp [loop, objGet, lookupStr, truthyOpt]

/-- Witness for C5: a one-frame stack whose frame carries `catch: 4`; the
error `"x"` unwinds to state 4 with the frame consumed. -/
theorem c5_amended_witness :
    inspect (some 3) [{ catchF := some 4 }] (.obj [("error", .str "x")])
      = (some 4, [], .obj [("error", .str "x")]) := by
  have h := c5_amended (some 3) [{ catchF := some 4 }] (.obj [("error", .str "x")]) (.str "x") rfl
  exact h.2.2.1 0 4 (by decide) (fun j hj hlt => absurd hlt (Nat.not_lt_zero j)) rfl

/-- Counterexample for C5 as stated: the composition consisting of one
`pass` state, run on `{error: null}` (a defined but falsy error value) with
no handler, terminates as a success result `{params: {error: null}}`, not as
a terminal error (the bare error object). -/
theorem c5_counterexample :
    invoke dummyOracle [{ type := StateType.pass }] 3 (.obj [("error", JValue.null)])
      = some (.result (.obj [("params", .obj [("error", JValue.null)])]))
    ∧ (JValue.obj [("params", .obj [("error", JValue.null)])]) ≠ .obj [("error", JValue.null)] := by
  exact ⟨rfl, by decide⟩

/-! ## C6: idempotence of inspect -/

/-- C6, amended.  `inspect` is idempotent on every triple whose `params` has
no defined `error` field (including non-object `params`, whose wrap
`{value: params}` has none), and on error triples whose stack contains no
frame with a numeric `catch`.  It is not idempotent in general: when the
first run finds a catch frame, a second run unwinds the remaining stack
further (see the counterexample). -/
theorem c6_amended (st : Option Int) (stack : List Frame) (params : JValue) :
    (objGet params "error" = none →
      inspect (inspect st stack params).1 (inspect st stack params).2.1
          (inspect st stack params).2.2
        = inspect st stack params)
    ∧ (∀ e, objGet params "error" = some e → (∀ f ∈ stack, f.catchF = none) →
      inspect (inspect st stack params).1 (inspect st stack params).2.1
          (inspect st stack params).2.2
        = inspect st stack params) := by
  constructor
  · intro h
    cases hio : isObject params with
    | true =>
        have h1 : inspect st stack params = (st, stack, params) := by
          simp only [inspect, hio, if_true, h]
        rw [h1]
        simp only [inspect, hio, if_true, h]
    | false =>
        have h1 : inspect st stack params = (st, stack, .obj [("value", params)]) := by
          simp only [inspect, hio, Bool.false_eq_true, if_false]
          rfl
        rw [h1]
        simp only [inspect]
        rfl
  · intro e hp hnone
    have hio : isObject params = true := objGet_some_isObject hp
    have h1 : inspect st stack params = (none, [], .obj [("error", e)]) := by
      simp only [inspect, hio, if_true, hp]
      rw [unwind_no_catch stack hnone]
    rw [h1]
    rfl

/-- Witness for C6: on an error-free `params` a second `inspect` changes
nothing, even with a catch frame on the stack. -/
theorem c6_amended_witness :
    inspect (inspect (some 2) [{ catchF := some 9 }] (.obj [("a", .num 1)])).1
        (inspect (some 2) [{ catchF := some 9 }] (.obj [("a", .num 1)])).2.1
        (inspect (some 2) [{ catchF := some 9 }] (.obj [("a", .num 1)])).2.2
      = inspect (some 2) [{ catchF := some 9 }] (.obj [("a", .num 1)]) :=
  (c6_amended (some 2) [{ catchF := some 9 }] (.obj [("a", .num 1)])).1 rfl

/-- Counterexample for C6 as stated: with `params = {error: "e"}` and two
catch frames (targets 5 and 7), the first `inspect` stops at the first
handler (state 5, one frame left) and a second `inspect` unwinds on to the
second handler (state 7, empty stack), so running twice differs from running
once. -/
theorem c6_counterexample :
    inspect (inspect (some 0) [{ catchF := some 5 }, { catchF := some 7 }]
          (.obj [("error", .str "e")])).1
        (inspect (some 0) [{ catchF := some 5 }, { catchF := some 7 }]
          (.obj [("error", .str "e")])).2.1
        (inspect (some 0) [{ catchF := some 5 }, { catchF := some 7 }]
          (.obj [("error", .str "e")])).2.2
      ≠ inspect (some 0) [{ catchF := some 5 }, { catchF := some 7 }]
          (.obj [("error", .str "e")]) := by
  decide

/-! ## Lemmas on lookup, assignment and the environment -/

theorem lookupStr_nil (k : String) : lookupStr [] k = none := rfl

theorem lookupStr_cons (a : String × JValue) (l : List (String × JValue)) (k : String) :
    lookupStr (a :: l) k = if a.1 == k then some a.2 else lookupStr l k := by
  cases h : (a.1 == k) with
  | true => simp [lookupStr, List.find?_cons_of_pos, h]
  | false => simp [lookupStr, List.find?_cons_of_neg, h]

theorem lookupStr_eq_none_of_not_mem :
    ∀ {m : List (String × JValue)} {k : String}, k ∉ m.map Prod.fst → lookupStr m k = none := by
  intro m
  induction m with
  | nil => intro k _; rfl
  | cons a l ih =>
      intro k hk
      simp only [List.map_cons, List.mem_cons, not_or] at hk
      have hne : (a.1 == k) = false := beq_eq_false_iff_ne.mpr (fun hh => hk.1 hh.symm)
      rw [lookupStr_cons, hne]
      simpa using ih hk.2

theorem lookupStr_append (l₁ l₂ : List (String × JValue)) (k : String) :
    lookupStr (l₁ ++ l₂) k
      = match lookupStr l₁ k with
        | some v => some v
        | none => lookupStr l₂ k := by
  induction l₁ with
  | nil => rfl
  | cons a l ih =>
      rw [List.cons_append, lookupStr_cons, lookupStr_cons]
      cases h : (a.1 == k) <;> simp [ih]

theorem any_eq_false_lookup {acc : List (String × JValue)} {key : String}
    (h : acc.any (fun p => p.1 == key) = false) : lookupStr acc key = none := by
  induction acc with
  | nil => rfl
  | cons a l ih =>
      simp only [List.any_cons, Bool.or_eq_false_iff] at h
      rw [lookupStr_cons, h.1]
      simpa using ih h.2

theorem lookup_map_replace_eq (k : String) (v : JValue) :
    ∀ acc : List (String × JValue), acc.any (fun p => p.1 == k) = true →
      lookupStr (acc.map (fun p => if p.1 == k then (k, v) else p)) k = some v := by
  intro acc
  induction acc with
  | nil => intro h; simp at h
  | cons a l ih =>
      intro h
      rw [List.map_cons, lookupStr_cons]
      cases ha : (a.1 == k) with
      | true => simp
      | false =>
          have h' : (l.any fun p => p.1 == k) = true := by simpa [ha] using h
          simpa [ha] using ih h'

theorem lookup_map_replace_ne (k : String) (v : JValue) (name : String)
    (h : (k == name) = false) :
    ∀ acc : List (String × JValue),
      lookupStr (acc.map (fun p => if p.1 == k then (k, v) else p)) name
        = lookupStr acc name := by
  intro acc
  induction acc with
  | nil => rfl
  | cons a l ih =>
      rw [List.map_cons, lookupStr_cons, lookupStr_cons]
      simp only [beq_iff_eq] at ih
      cases ha : (a.1 == k) with
      | true =>
          have ha' : a.1 = k := by simpa using ha
          have hkn : ¬ k = name := by simpa using h
          simp [ha', hkn, ih]
      | false =>
          have han : ¬ a.1 = k := by simpa using ha
          simp [han, ih]

theorem lookup_assignStep (acc : List (String × JValue)) (k : String) (v : JValue)
    (name : String) :
    lookupStr (assignStep acc (k, v)) name
      = if name = k then some v else lookupStr acc name := by
  by_cases hn : name = k
  · subst hn
    cases hc : acc.any (fun p => p.1 == name) with
    | true =>
        simp only [assignStep, hc, if_true]
        simpa using lookup_map_replace_eq name v acc hc
    | false =>
        simp only [assignStep, hc, Bool.false_eq_true, if_false, if_true]
        rw [lookupStr_append, any_eq_false_lookup hc, lookupStr_cons]
        simp
  · have hne : (k == name) = false := beq_eq_false_iff_ne.mpr (fun hh => hn hh.symm)
    cases hc : acc.any (fun p => p.1 == k) with
    | true =>
        simp only [assignStep, hc, if_true, if_neg hn]
        simpa using lookup_map_replace_ne k v name hne acc
    | false =>
        simp only [assignStep, hc, Bool.false_eq_true, if_false, if_neg hn]
        rw [lookupStr_append, lookupStr_cons]
        simp only [hne, Bool.false_eq_true, if_false, lookupStr_nil]
        cases lookupStr acc name <;> rfl

theorem lookup_jsAssign :
    ∀ (m acc : List (String × JValue)) (name : String), keysNodup m →
      lookupStr (jsAssign acc m) name
        = match lookupStr m name with
          | some w => some w
          | none => lookupStr acc name := by
  intro m
  induction m with
  | nil => intro acc name _; rfl
  | cons kv m' ih =>
      intro acc name hnd
      obtain ⟨k, v⟩ := kv
      have hnd1 : (k :: m'.map Prod.fst).Nodup := hnd
      have hnd2 : k ∉ m'.map Prod.fst ∧ (m'.map Prod.fst).Nodup := List.nodup_cons.mp hnd1
      have hstep : jsAssign acc ((k, v) :: m') = jsAssign (assignStep acc (k, v)) m' := rfl
      rw [hstep, ih (assignStep acc (k, v)) name hnd2.2, lookupStr_cons, lookup_assignStep]
      by_cases hn : name = k
      · subst hn
        rw [lookupStr_eq_none_of_not_mem hnd2.1]
        simp
      · have hne : (k == name) = false := beq_eq_false_iff_ne.mpr (fun hh => hn hh.symm)
        rw [hne]
        cases lookupStr m' name <;> simp [hn]

theorem buildEnv_lookup :
    ∀ (stack : List Frame), WFstack stack → ∀ name,
      lookupStr (buildEnv stack) name
        = (stack.find? (fun f => (frameDecl f name).isSome)).bind (fun f => frameDecl f name) := by
  intro stack
  induction stack with
  | nil => intro _ name; rfl
  | cons f rest ih =>
      intro hwf name
      have hwfr : WFstack rest := fun g hg => hwf g (List.mem_cons_of_mem f hg)
      have hbe : buildEnv (f :: rest)
          = match f.letF with
            | some m => jsAssign (buildEnv rest) m
            | none => buildEnv rest := rfl
      rw [hbe]
      cases hf : f.letF with
      | none =>
          have hd : (frameDecl f name).isSome = false := by simp [frameDecl, hf]
          have hfind : List.find? (fun g => (frameDecl g name).isSome) (f :: rest)
              = List.find? (fun g => (frameDecl g name).isSome) rest :=
            List.find?_cons_of_neg rest (by simp [hd])
          rw [hfind]
          exact ih hwfr name
      | some m =>
          have hm : keysNodup m := by
            have := hwf f (List.mem_cons_self f rest)
            simpa [hf] using this
          rw [lookup_jsAssign m (buildEnv rest) name hm]
          have hfd : frameDecl f name = lookupStr m name := by simp [frameDecl, hf]
          cases hl : lookupStr m name with
          | some w =>
              have hd : (frameDecl f name).isSome = true := by simp [hfd, hl]
              have hfind : List.find? (fun g => (frameDecl g name).isSome) (f :: rest)
                  = some f :=
                List.find?_cons_of_pos rest hd
              rw [hfind]
              simp [hfd, hl]
          | none =>
              have hd : (frameDecl f name).isSome = false := by simp [hfd, hl]
              have hfind : List.find? (fun g => (frameDecl g name).isSome) (f :: rest)
                  = List.find? (fun g => (frameDecl g name).isSome) rest :=
                List.find?_cons_of_neg rest (by simp [hd])
              rw [hfind]
              exact ih hwfr name

theorem setVar_not_declared :
    ∀ (stack : List Frame) (name : String) (v : JValue),
      (∀ f ∈ stack, frameDecl f name = none) → setVar stack name v = stack
  | [], _, _, _ => rfl
  | f :: rest, name, v, h => by
      have hf : frameDecl f name = none := h f (List.mem_cons_self f rest)
      simp only [setVar, hf, Option.isSome_none, Bool.false_eq_true, if_false]
      rw [setVar_not_declared rest name v (fun g hg => h g (List.mem_cons_of_mem f hg))]

theorem setVar_topmost :
    ∀ (stack : List Frame) (i : ℕ) (name : String) (v : JValue) (hi : i < stack.length),
      (∀ j (hj : j < stack.length), j < i → frameDecl (stack.get ⟨j, hj⟩) name = none) →
      (frameDecl (stack.get ⟨i, hi⟩) name).isSome = true →
      setVar stack name v = stack.set i (updFrame (stack.get ⟨i, hi⟩) name v)
  | [], i, _, _, hi, _, _ => absurd hi (by simp)
  | f :: rest, 0, name, v, hi, _, hd => by
      simp only [List.get] at hd
      simp [setVar, hd]
  | f :: rest, i + 1, name, v, hi, hprev, hd => by
      have hf : frameDecl f name = none := hprev 0 (by simp) (Nat.succ_pos i)
      simp only [setVar, hf, Option.isSome_none, Bool.false_eq_true, if_false]
      have hi' : i < rest.length := by simpa using hi
      have hprev' : ∀ j (hj : j < rest.length), j < i → frameDecl (rest.get ⟨j, hj⟩) name = none := by
        intro j hj hlt
        have := hprev (j + 1) (by simpa using Nat.succ_lt_succ hj) (Nat.succ_lt_succ hlt)
        simpa using this
      have hd' : (frameDecl (rest.get ⟨i, hi'⟩) name).isSome = true := by simpa using hd
      have := setVar_topmost rest i name v hi' hprev' hd'
      rw [this]
      simp

/-! ## C8: lexical environment assembly and write-back -/

/-- C8, confirmed.  For every stack whose `let` maps have distinct keys (as
JavaScript objects do) and every name: (1) the environment built by
`reduceRight`/`Object.assign` — merging let frames from the deepest to the
shallowest, shallower overriding — binds each name to the value of the
frontmost (topmost) frame declaring it; (2) a name declared by no live let
frame is not written back anywhere by `set`; (3) `set` writes the new value
(deep cloning is the identity here) exactly into the frontmost frame whose
`let` map declares the name, leaving every other frame unchanged. -/
theorem c8_env_writeback (stack : List Frame) (hwf : WFstack stack) (name : String) (v : JValue) :
    lookupStr (buildEnv stack) name
      = (stack.find? (fun f => (frameDecl f name).isSome)).bind (fun f => frameDecl f name)
    ∧ ((∀ f ∈ stack, frameDecl f name = none) → setVar stack name v = stack)
    ∧ (∀ (i : ℕ) (hi : i < stack.length),
        (∀ j (hj : j < stack.length), j < i → frameDecl (stack.get ⟨j, hj⟩) name = none) →
        (frameDecl (stack.get ⟨i, hi⟩) name).isSome = true →
        setVar stack name v = stack.set i (updFrame (stack.get ⟨i, hi⟩) name v)) :=
  ⟨buildEnv_lookup stack hwf name, setVar_not_declared stack name v,
    fun i hi h1 h2 => setVar_topmost stack i name v hi h1 h2⟩

/-- Witness for C8: a three-frame stack (a push frame, then a let frame
binding `a` and `b`, then a deeper let frame also binding `a`): the
environment takes `a = 1` from the topmost declaring frame, and writing
`a := 5` updates exactly that frame. -/
theorem c8_env_writeback_witness :
    lookupStr (buildEnv
        [{ paramsF := some (JValue.num 0) },
         { letF := some [("a", JValue.num 1), ("b", JValue.num 9)] },
         { letF := some [("a", JValue.num 7)] }]) "a" = some (JValue.num 1)
    ∧ setVar
        [{ paramsF := some (JValue.num 0) },
         { letF := some [("a", JValue.num 1), ("b", JValue.num 9)] },
         { letF := some [("a", JValue.num 7)] }] "a" (JValue.num 5)
      = [{ paramsF := some (JValue.num 0) },
         { letF := some [("a", JValue.num 5), ("b", JValue.num 9)] },
         { letF := some [("a", JValue.num 7)] }] := by
  have h := c8_env_writeback
    [{ paramsF := some (JValue.num 0) },
     { letF := some [("a", JValue.num 1), ("b", JValue.num 9)] },
     { letF := some [("a", JValue.num 7)] }] (by decide) "a" (JValue.num 5)
  constructor
  · rw [h.1]; decide
  · have h3 := h.2.2 1 (by decide) (by decide) (by decide)
    rw [h3]; decide

/-! ## C7: the resume protocol -/

/-- C7, confirmed.  When `params.$resume` is present: a non-object
`$resume`, or (state being absent or a number) a `stack` field that is not
an array, makes the conductor return a bad request `{code: 400,
error: <string>}` without reading any FSM state (the result does not depend
on the FSM or the fuel); a `$resume` that passes validation restores `state`
and `stack`, removes `$resume` from `params`, and immediately runs `inspect`
before entering the interpreter loop, so an error returned by the
previously invoked action is routed to the nearest handler.  (The source
additionally rejects, also with code 400, a `$resume.state` that is defined
but not a number; second conjunct.) -/
theorem c7_resume (oracle : Oracle) (fsm : List FsmState) (fuel : Nat) (params r : JValue)
    (hr : objGet params "$resume" = some r) :
    (isObject r = false →
      invoke oracle fsm fuel params
        = some (.reject 400 "The type of optional $resume parameter must be object"))
    ∧ (isObject r = true → stateBad (objGet r "state") = true →
      invoke oracle fsm fuel params
        = some (.reject 400 "The type of optional $resume.state parameter must be number"))
    ∧ (isObject r = true → stateBad (objGet r "state") = false →
      (∀ frames, objGet r "stack" ≠ some (.arr frames)) →
      invoke oracle fsm fuel params
        = some (.reject 400 "The type of $resume.stack must be an array"))
    ∧ (∀ frames stack, isObject r = true → stateBad (objGet r "state") = false →
      objGet r "stack" = some (.arr frames) → decodeFrames frames = some stack →
      invoke oracle fsm fuel params
        = loop oracle fsm fuel
            (inspect (stateOf (objGet r "state")) stack (removeKey params "$resume")).1
            (inspect (stateOf (objGet r "state")) stack (removeKey params "$resume")).2.1
            (inspect (stateOf (objGet r "state")) stack (removeKey params "$resume")).2.2) := by
  refine ⟨?_, ?_, ?_, ?_⟩
  · intro hio
    simp [invoke, hr, hio]
  · intro hio hsb
    simp [invoke, hr, hio, hsb]
  · intro hio hsb hstk
    cases hs : objGet r "stack" with
    | none => simp [invoke, hr, hio, hsb, hs]
    | some v =>
        cases v with
        | arr frames => exact absurd hs (hstk frames)
        | null => simp [invoke, hr, hio, hsb, hs]
        | bool b => simp [invoke, hr, hio, hsb, hs]
        | num n => simp [invoke, hr, hio, hsb, hs]
        | str s => simp [invoke, hr, hio, hsb, hs]
        | obj fs => simp [invoke, hr, hio, hsb, hs]
  · intro frames stack hio hsb hs hdec
    simp only [invoke, hr, hio, Bool.not_true, Bool.false_eq_true, if_false, hsb, hs, hdec]

/-- Witness for C7: a non-object `$resume` is rejected with code 400, and
a well-formed `$resume` carrying a catch frame routes the returned error
straight to the handler at state 1. -/
theorem c7_resume_witness :
    invoke dummyOracle [] 5 (.obj [("$resume", .num 5)])
      = some (.reject 400 "The type of optional $resume parameter must be object")
    ∧ invoke dummyOracle [{ type := StateType.pass }, { type := StateType.literal, value := .obj [("ok", .bool true)] }] 5
        (.obj [("$resume", .obj [("state", .num 0), ("stack", .arr [.obj [("catch", .num 1)]])]), ("error", .str "boom")])
      = loop dummyOracle [{ type := StateType.pass }, { type := StateType.literal, value := .obj [("ok", .bool true)] }] 5
          (some 1) [] (.obj [("error", .str "boom")]) := by
  constructor
  · exact (c7_resume dummyOracle [] 5 (.obj [("$resume", .num 5)]) (.num 5) rfl).1 rfl
  · have h := (c7_resume dummyOracle
      [{ type := StateType.pass }, { type := StateType.literal, value := .obj [("ok", .bool true)] }]
      5
      (.obj [("$resume", .obj [("state", .num 0), ("stack", .arr [.obj [("catch", .num 1)]])]),
        ("error", .str "boom")])
      (.obj [("state", .num 0), ("stack", .arr [.obj [("catch", .num 1)]])]) rfl).2.2.2
      [.obj [("catch", .num 1)]] [{ catchF := some 1 }] rfl rfl rfl rfl
    exact h

/-! ## C9: function state result handling -/

/-- C9, confirmed.  For every `function` state (with the dynamic evaluator
abstracted as an oracle yielding the outcome and the post-execution
environment, which is written back in every case): returning `undefined`
preserves the current `params`; throwing substitutes
`{error: "An exception was caught at state <current> (see log for
details)"}`; returning a callable substitutes
`{error: "State <current> evaluated to a function"}`; otherwise `params`
becomes the returned value (deep cloning is the identity here); and
`inspect` runs afterwards in all four cases before the loop continues. -/
theorem c9_function_step (oracle : Oracle) (fsm : List FsmState) (fuel : Nat) (current : Int)
    (stack : List Frame) (params : JValue) (json : FsmState)
    (hget : getState fsm current = some json) (hty : json.type = .function) :
    ((oracle current params (buildEnv stack)).1 = FnRes.undef →
      loop oracle fsm (fuel + 1) (some current) stack params
        = loop oracle fsm fuel
            (inspect (json.next.map (fun n => current + n))
              (writeback stack (oracle current params (buildEnv stack)).2) params).1
            (inspect (json.next.map (fun n => current + n))
              (writeback stack (oracle current params (buildEnv stack)).2) params).2.1
            (inspect (json.next.map (fun n => current + n))
              (writeback stack (oracle current params (buildEnv stack)).2) params).2.2)
    ∧ ((oracle current params (buildEnv stack)).1 = FnRes.throws →
      loop oracle fsm (fuel + 1) (some current) stack params
        = loop oracle fsm fuel
            (inspect (json.next.map (fun n => current + n))
              (writeback stack (oracle current params (buildEnv stack)).2)
              (.obj [("error", .str s!"An exception was caught at state {current} (see log for details)")])).1
            (inspect (json.next.map (fun n => current + n))
              (writeback stack (oracle current params (buildEnv stack)).2)
              (.obj [("error", .str s!"An exception was caught at state {current} (see log for details)")])).2.1
            (inspect (json.next.map (fun n => current + n))
              (writeback stack (oracle current params (buildEnv stack)).2)
              (.obj [("error", .str s!"An exception was caught at state {current} (see log for details)")])).2.2)
    ∧ ((oracle current params (buildEnv stack)).1 = FnRes.fnVal →
      loop oracle fsm (fuel + 1) (some current) stack params
        = loop oracle fsm fuel
            (inspect (json.next.map (fun n => current + n))
              (writeback stack (oracle current params (buildEnv stack)).2)
              (.obj [("error", .str s!"State {current} evaluated to a function")])).1
            (inspect (json.next.map (fun n => current + n))
              (writeback stack (oracle current params (buildEnv stack)).2)
              (.obj [("error", .str s!"State {current} evaluated to a function")])).2.1
            (inspect (json.next.map (fun n => current + n))
              (writeback stack (oracle current params (buildEnv stack)).2)
              (.obj [("error", .str s!"State {current} evaluated to a function")])).2.2)
    ∧ (∀ v, (oracle current params (buildEnv stack)).1 = FnRes.value v →
      loop oracle fsm (fuel + 1) (some current) stack params
        = loop oracle fsm fuel
            (inspect (json.next.map (fun n => current + n))
              (writeback stack (oracle current params (buildEnv stack)).2) v).1
            (inspect (json.next.map (fun n => current + n))
              (writeback stack (oracle current params (buildEnv stack)).2) v).2.1
            (inspect (json.next.map (fun n => current + n))
              (writeback stack (oracle current params (buildEnv stack)).2) v).2.2) := by
  obtain ⟨ty, nx, nm, ex, vl, th, el, ca, lt, fd, cl⟩ := json
  simp only at hty
  subst hty
  refine ⟨?_, ?_, ?_, ?_⟩
  · intro h
    simp only [loop, hget, h]
  · intro h
    simp only [loop, hget, h]
  · intro h
    simp only [loop, hget, h]
  · intro v h
    simp only [loop, hget, h]

/-! ## C10: defined-but-falsy error values -/

/-- C10, confirmed.  For every falsy value `e` (`truthy e = false`): when
`params.error` is defined and equal to `e`, `inspect` still discards the
other fields and unwinds the stack to the nearest numeric `catch` — yet the
terminal check, which uses truthiness of `params.error`, returns the
success result `{params: {error: e}}` rather than a terminal error. -/
theorem c10_falsy_error (e : JValue) (he : truthy e = false) :
    (∀ (st : Option Int) (stack : List Frame) (params : JValue),
      objGet params "error" = some e →
        (inspect st stack params).2.2 = .obj [("error", e)]
        ∧ ∀ (i : ℕ) (n : Int) (hi : i < stack.length),
            (∀ j (hj : j < stack.length), j < i → (stack.get ⟨j, hj⟩).catchF = none) →
            (stack.get ⟨i, hi⟩).catchF = some n →
            (inspect st stack params).1 = some n
            ∧ (inspect st stack params).2.1 = stack.drop (i + 1))
    ∧ (∀ (oracle : Oracle) (fsm : List FsmState) (fuel : Nat) (stack : List Frame),
        loop oracle fsm (fuel + 1) none stack (.obj [("error", e)])
          = some (.result (.obj [("params", .obj [("error", e)])]))) := by
  constructor
  · intro st stack params hp
    have hio : isObject params = true := objGet_some_isObject hp
    have hins : inspect st stack params
        = ((unwind stack).1, (unwind stack).2, .obj [("error", e)]) := by
      simp only [inspect, hio, if_true, hp]
    refine ⟨by rw [hins], ?_⟩
    intro i n hi hprev hc
    rw [hins, unwind_first_catch stack i n hi hprev hc]
    exact ⟨rfl, rfl⟩
  · intro oracle fsm fuel stack
    simp [loop, objGet, lookupStr, truthyOpt, he]

/-- Witness for C10: the falsy error value `false` unwinds to the handler
at state 2, and at the terminal state yields a success wrapping. -/
theorem c10_falsy_error_witness :
    (inspect none [{ catchF := some 2 }] (.obj [("a", .num 3), ("error", .bool false)])).1 = some 2
    ∧ loop dummyOracle [] 1 none [] (.obj [("error", .bool false)])
      = some (.result (.obj [("params", .obj [("error", .bool false)])])) := by
  have h := c10_falsy_error (.bool false) rfl
  have h1 := (h.1 none [{ catchF := some 2 }] (.obj [("a", .num 3), ("error", .bool false)])
    rfl).2 0 2 (by decide) (fun j hj hlt => absurd hlt (Nat.not_lt_zero j)) rfl
  exact ⟨h1.1, h.2 dummyOracle [] 0 []⟩

/-- Witness for C9: a single `function` state whose evaluation returns
`{r: 1}`; the interpreter continues at state 1 with the returned value as
`params`. -/
theorem c9_function_step_witness :
    loop (fun _ _ _ => (FnRes.value (.obj [("r", .num 1)]), []))
        [{ type := StateType.function, exec := "f", next := some 1 }] 1 (some 0) [] (.obj [])
      = loop (fun _ _ _ => (FnRes.value (.obj [("r", .num 1)]), []))
          [{ type := StateType.function, exec := "f", next := some 1 }] 0 (some 1) []
          (.obj [("r", .num 1)]) := by
  have h := (c9_function_step (fun _ _ _ => (FnRes.value (.obj [("r", .num 1)]), []))
    [{ type := StateType.function, exec := "f", next := some 1 }] 0 0 [] (.obj [])
    { type := StateType.function, exec := "f", next := some 1 } (by decide) rfl).2.2.2
    (.obj [("r", .num 1)]) rfl
  exact h

